import Mathlib

/-!
Verification of the `paperfetcher` PubMed pipeline
(`paperfetcher/core.py`, `paperfetcher/models.py`).

The development shallowly embeds the Python source:

* strings are Lean `String`s, with Python string primitives
  (`lower`, `strip`, `split`, substring `in`) re-implemented
  character-by-character;
* `xml.etree.ElementTree` elements become a rose tree `Element`
  (tag, attributes, leading text, children, tail text), and element
  lookups (`find(".//T")`, `findall("./T")`, `findtext`, `itertext`,
  `get`) are defined over that tree;
* the XML string parser of the standard library is not repository code,
  so it enters as an explicit parameter `String → Option Element`
  (`none` models `ET.ParseError`);
* the two HTTP endpoints are an oracle `Remote` giving each request a
  status code and a body; raised exceptions become `Except` values.
-/

/-! ## Python string primitives -/

/-- The characters Python `str.split()` / `str.strip()` treat as
whitespace (ASCII portion, which is all the repository relies on). -/
def isPySpace (c : Char) : Bool :=
  c == ' ' || c == '\t' || c == '\n' || c == '\r' || c == '\x0b' || c == '\x0c'

/-- Remove the characters satisfying `bad` from both ends of a string,
as Python `str.strip` does. -/
def stripBoth (bad : Char → Bool) (s : String) : String :=
  String.mk (((s.data.dropWhile bad).reverse.dropWhile bad).reverse)

/-- Python `str.strip()` (no argument): strip whitespace at both ends. -/
def pyStrip (s : String) : String := stripBoth isPySpace s

/-- Python `str.strip(".;,")`: strip `.`, `;`, `,` at both ends. -/
def stripPunct (s : String) : String :=
  stripBoth (fun c => c == '.' || c == ';' || c == ',') s

/-- Stripping `.`, `;`, `,` from the trailing end only — this is what
the specification text says `strip(".;,")` does (used to compare the
spec sentence with the code, which strips both ends). -/
def stripTrailingPunct (s : String) : String :=
  String.mk ((s.data.reverse.dropWhile (fun c => c == '.' || c == ';' || c == ',')).reverse)

/-- Python `str.lower()` (character-wise; ASCII is all the keyword
heuristic relies on). -/
def pyLower (s : String) : String := String.mk (s.data.map Char.toLower)

/-- `leadsWith pat l` holds when `pat` is an initial run of `l`. -/
def leadsWith : List Char → List Char → Bool
  | [], _ => true
  | _ :: _, [] => false
  | p :: ps, c :: cs => p == c && leadsWith ps cs

/-- `containsSub pat l`: `pat` occurs contiguously inside `l`
(the semantics of Python `pat in l` on strings). -/
def containsSub (pat : List Char) : List Char → Bool
  | [] => leadsWith pat []
  | c :: cs => leadsWith pat (c :: cs) || containsSub pat cs

/-- Python `pat in s` for strings. -/
def strContains (s pat : String) : Bool := containsSub pat.data s.data

/-- Worker for Python `str.split()`: `cur` is the reversed current word. -/
def wordsAux (cur : List Char) : List Char → List (List Char)
  | [] => if cur.isEmpty then [] else [cur.reverse]
  | c :: cs =>
    if isPySpace c then
      if cur.isEmpty then wordsAux [] cs else cur.reverse :: wordsAux [] cs
    else wordsAux (c :: cur) cs

/-- Python `str.split()` (split on whitespace runs, no empty tokens). -/
def pyWords (s : String) : List String := (wordsAux [] s.data).map String.mk

/-- `affiliation_text.replace('(', ' ').replace(')', ' ')`: both
replacements are single-character, hence a character map. -/
def parensToSpace (s : String) : String :=
  String.mk (s.data.map (fun c => if c == '(' || c == ')' then ' ' else c))

/-! ## The ElementTree data model -/

mutual
/-- One `xml.etree.ElementTree.Element`: tag, attribute list, text
before the first child (`.text`), children, and text after the closing
tag (`.tail`). -/
inductive Element where
  | mk : String → List (String × String) → Option String → ElemList → Option String → Element
/-- Children of an element (a separate inductive so that all tree
recursions below are structural and kernel-computable). -/
inductive ElemList where
  | nil : ElemList
  | cons : Element → ElemList → ElemList
end

def Element.tag : Element → String
  | .mk t _ _ _ _ => t

def Element.attrs : Element → List (String × String)
  | .mk _ a _ _ _ => a

def Element.text : Element → Option String
  | .mk _ _ x _ _ => x

def Element.childrenL : Element → ElemList
  | .mk _ _ _ ch _ => ch

def Element.tailStr : Element → String
  | .mk _ _ _ _ tl => tl.getD ""

def ElemList.toList : ElemList → List Element
  | .nil => []
  | .cons e es => e :: es.toList

/-- The children of an element, as a plain list. -/
def Element.children (e : Element) : List Element := e.childrenL.toList

/-- Convenience constructor used for concrete documents (tail `none`). -/
def elemOf (tag : String) (attrs : List (String × String)) (txt : Option String)
    (ch : List Element) : Element :=
  .mk tag attrs txt (ch.foldr .cons .nil) none

mutual
/-- `"".join(e.itertext())`: the element's own text followed by, for
each child, its joined text and then its tail. -/
def Element.itertext : Element → String
  | .mk _ _ x ch _ => x.getD "" ++ ElemList.itertexts ch
def ElemList.itertexts : ElemList → String
  | .nil => ""
  | .cons e es => Element.itertext e ++ Element.tailStr e ++ ElemList.itertexts es
end

mutual
/-- All strict descendants of an element in document (preorder) order,
the node sequence that `elem.iter()` yields after `elem` itself. -/
def Element.descendants : Element → List Element
  | .mk _ _ _ ch _ => ElemList.descList ch
def ElemList.descList : ElemList → List Element
  | .nil => []
  | .cons e es => e :: (Element.descendants e ++ ElemList.descList es)
end

/-- `elem.find(".//tag")`: first strict descendant with the given tag,
in document order. -/
def findDesc (tag : String) (e : Element) : Option Element :=
  e.descendants.find? (fun x => x.tag == tag)

/-- `elem.findall(".//tag")`: all strict descendants with the tag. -/
def findAllDesc (tag : String) (e : Element) : List Element :=
  e.descendants.filter (fun x => x.tag == tag)

/-- `elem.findall("./tag")`: the direct children with the tag. -/
def childrenNamed (tag : String) (e : Element) : List Element :=
  e.children.filter (fun x => x.tag == tag)

/-- `elem.get(key, dflt)`: attribute lookup. -/
def Element.getAttr (e : Element) (key dflt : String) : String :=
  match e.attrs.find? (fun p => p.1 == key) with
  | some p => p.2
  | none => dflt

/-- `elem.findtext("tag", dflt)` with a direct-child path: the `.text`
of the first matching child (`""` when that text is `None`), or `dflt`
when no child matches. -/
def Element.findtextChild (e : Element) (tag dflt : String) : String :=
  match (e.children.find? (fun c => c.tag == tag)) with
  | none => dflt
  | some c => c.text.getD ""

/-- `elem.findtext(".//tag", dflt)` with a descendant path. -/
def Element.findtextDesc (e : Element) (tag dflt : String) : String :=
  match findDesc tag e with
  | none => dflt
  | some c => c.text.getD ""

/-! ## `paperfetcher.models.PaperResult` -/

/-- `models.PaperResult`: one filtered article. -/
structure PaperResult where
  pubmed_id : String
  title : String
  publication_date : String
  non_academic_authors : List String
  company_affiliations : List String
  corresponding_author_email : Option String
deriving DecidableEq

/-- `PaperResult.to_csv_row`: the six CSV fields, list fields joined
with "; ", and `self.corresponding_author_email or "N/A"` (Python
falsiness: both `None` and `""` give `"N/A"`). -/
def PaperResult.to_csv_row (p : PaperResult) : List String :=
  [p.pubmed_id,
   p.title,
   p.publication_date,
   String.intercalate "; " p.non_academic_authors,
   String.intercalate "; " p.company_affiliations,
   match p.corresponding_author_email with
   | none => "N/A"
   | some e => if e = "" then "N/A" else e]

/-- `PaperResult.get_csv_header`. -/
def PaperResult.get_csv_header : List String :=
  ["PubmedID",
   "Title",
   "Publication Date",
   "Non-academic Author(s)",
   "Company Affiliation(s)",
   "Corresponding Author Email"]

/-! ## `paperfetcher.core` constants and affiliation heuristic -/

/-- `core.MAX_UIDS_PER_REQUEST`. -/
def MAX_UIDS_PER_REQUEST : Nat := 200

/-- `core.COMPANY_KEYWORDS`. -/
def COMPANY_KEYWORDS : List String :=
  ["inc", "ltd", "llc", "corp", "corporation", "pharmaceuticals",
   "therapeutics", "biotech", "biosciences", "diagnostics",
   "labs", "laboratories", "gmbh", "ag", "s.a."]

/-- `core._is_company_affiliation`: empty string is falsy, otherwise
any keyword must occur in the lowercased text. -/
def is_company_affiliation (affiliation : String) : Bool :=
  if affiliation = "" then false
  else COMPANY_KEYWORDS.any (fun keyword => strContains (pyLower affiliation) keyword)

/-! ## Per-article extraction (`core.parse_and_filter_papers` body) -/

/-- `core._get_publication_date`: first `PubDate` descendant if any;
each of Year/Month/Day via `findtext` with default `"N/A"`; no
`PubDate` node at all gives the bare string `"N/A"`. -/
def get_publication_date (article_node : Element) : String :=
  match findDesc "PubDate" article_node with
  | some date_node =>
      date_node.findtextChild "Year" "N/A" ++ "-" ++
      date_node.findtextChild "Month" "N/A" ++ "-" ++
      date_node.findtextChild "Day" "N/A"
  | none => "N/A"

/-- One iteration of the author loop in
`core._get_corresponding_author_email`; `some email` models the
`return` statement, `none` falling through to the next author. -/
def emailFromAuthor (author_node : Element) : Option String :=
  let is_corr_attr := author_node.getAttr "CorrespondingAuthor" "N" == "Y"
  let affiliation_text :=
    match findDesc "Affiliation" author_node with
    | some n => pyStrip n.itertext
    | none => ""
  let is_corr_text := affiliation_text ≠ "" && strContains affiliation_text "Corresponding"
  if is_corr_attr || is_corr_text then
    if affiliation_text ≠ "" && strContains affiliation_text "@" then
      ((pyWords (parensToSpace affiliation_text)).reverse.find?
        (fun word => strContains word "@")).map stripPunct
    else none
  else none

/-- `core._get_corresponding_author_email`: scan `./Author` children,
return at the first author whose iteration produces an email. -/
def get_corresponding_author_email (author_list_node : Element) : Option String :=
  (childrenNamed "Author" author_list_node).findSome? emailFromAuthor

/-- One iteration of the author loop in `core.parse_and_filter_papers`:
`acc` is the pair (`non_academic_authors`, `company_affiliations`). -/
def authorStep (acc : List String × List String) (author_node : Element) :
    List String × List String :=
  match findDesc "Affiliation" author_node with
  | none => acc
  | some affiliation_node =>
    let affiliation_text := pyStrip affiliation_node.itertext
    if is_company_affiliation affiliation_text then
      let last_name := author_node.findtextDesc "LastName" ""
      let fore_name := author_node.findtextDesc "ForeName" ""
      let author_name := pyStrip (fore_name ++ " " ++ last_name)
      (if author_name = "" then acc.1 else acc.1 ++ [author_name],
       if affiliation_text ∈ acc.2 then acc.2 else acc.2 ++ [affiliation_text])
    else acc

/-- The body of the `for article_node in root.findall(".//PubmedArticle")`
loop: `none` models `continue` / not appending, `some` the appended
`PaperResult`. -/
def processArticle (article_node : Element) : Option PaperResult :=
  match findDesc "PMID" article_node,
        findDesc "ArticleTitle" article_node,
        findDesc "AuthorList" article_node with
  | some paper_id_node, some title_node, some author_list_node =>
    let pubmed_id :=
      match paper_id_node.text with
      | none => "N/A"
      | some t => if t = "" then "N/A" else t
    let title :=
      if pyStrip title_node.itertext = "" then "No Title"
      else pyStrip title_node.itertext
    let acc := (childrenNamed "Author" author_list_node).foldl authorStep ([], [])
    if acc.1 = [] then none
    else some
      { pubmed_id := pubmed_id
        title := title
        publication_date := get_publication_date article_node
        non_academic_authors := acc.1
        company_affiliations := acc.2
        corresponding_author_email := get_corresponding_author_email author_list_node }
  | _, _, _ => none

/-! ## Prolog / doctype stripping (the two `re.sub` calls) -/

/-- Case-insensitive literal match: on success, the input after the
pattern. -/
def matchCI : List Char → List Char → Option (List Char)
  | [], rest => some rest
  | _ :: _, [] => none
  | p :: ps, c :: cs => if p.toLower == c.toLower then matchCI ps cs else none

/-- Scan `[^>]*` up to the first `>`; with `needQm` the regex requires
the character before `>` to be `?` (pattern `<?xml[^>]*?>`), without it
the `>` alone closes the match (pattern `<!DOCTYPE[^>]*>`).  `prev` is
the previously consumed character.  Returns the input after `>`. -/
def scanEnd (needQm : Bool) : Option Char → List Char → Option (List Char)
  | _, [] => none
  | prev, c :: cs =>
    if c == '>' then
      if needQm then (if prev == some '?' then some cs else none) else some cs
    else scanEnd needQm (some c) cs

/-- A whole declaration match at the current position. -/
def matchDecl (pat : List Char) (needQm : Bool) (cs : List Char) : Option (List Char) :=
  match matchCI pat cs with
  | some rest => scanEnd needQm none rest
  | none => none

/-- Worker for the two `re.sub(..., '', ...)` calls: scan left to
right, skip every declaration match, keep every other character.  The
`fuel` argument (instantiated with the input length) only forces
termination: every step consumes one unit while the input shrinks at
least as fast, so the zero case is only ever reached on the empty
input. -/
def subDeclAux (pat : List Char) (needQm : Bool) : Nat → List Char → List Char
  | 0, l => l
  | _ + 1, [] => []
  | fuel + 1, c :: cs =>
    match matchDecl pat needQm (c :: cs) with
    | some rest => subDeclAux pat needQm fuel rest
    | none => c :: subDeclAux pat needQm fuel cs

/-- `re.sub(pattern, '', text, flags=re.I)` for the two declaration
patterns. -/
def subDecl (pat : List Char) (needQm : Bool) (l : List Char) : List Char :=
  subDeclAux pat needQm l.length l

/-- The cleaned text of `core.parse_and_filter_papers`: first remove
`<?xml ... ?>` declarations, then `<!DOCTYPE ... >` declarations, then
strip whitespace. -/
def cleanedXml (xml_data : String) : String :=
  pyStrip (String.mk (subDecl "<!doctype".data false (subDecl "<?xml".data true xml_data.data)))

/-- The synthetic-root wrapping handed to `ET.fromstring`. -/
def wrapRoot (xml_data : String) : String :=
  "<root>" ++ cleanedXml xml_data ++ "</root>"

/-- `core.parse_and_filter_papers`, with the standard library's XML
string parser abstracted as `parseXML` (`none` = `ET.ParseError`). -/
def parse_and_filter_papers (parseXML : String → Option Element) (xml_data : String) :
    List PaperResult :=
  if pyStrip xml_data = "" then []
  else
    match parseXML (wrapRoot xml_data) with
    | none => []
    | some root => (findAllDesc "PubmedArticle" root).filterMap processArticle

/-! ## Search, fetch and the orchestrator -/

/-- The exception that escapes `search_pubmed` / `fetch_paper_details`
on a non-success HTTP status (`httpx.HTTPStatusError`, the spec's
`RemoteError`); `other` stands for the remaining exception classes. -/
inductive PipeError where
  | remote (status : Nat)
  | other (msg : String)
deriving DecidableEq

/-- `httpx.Response.is_success`: a 2xx status.  `raise_for_status`
raises exactly when this is false. -/
def isSuccess (status : Nat) : Bool := 200 ≤ status && status < 300

/-- The live behaviour of the two eutils endpoints during one run:
the search response status, the decoded `esearchresult.idlist` field
(`none` models a response missing the expected fields, which the code
treats as "no matches"), and per-batch status and body for the fetch
endpoint. -/
structure Remote where
  searchStatus : Nat
  searchIdList : Option (List String)
  fetchStatus : List String → Nat
  fetchBody : List String → String

/-- `core.search_pubmed`: raise on a non-success status, return `[]`
when the decoded JSON lacks `esearchresult`/`idlist`, else the id
list. -/
def search_pubmed (r : Remote) : Except PipeError (List String) :=
  if isSuccess r.searchStatus then
    match r.searchIdList with
    | none => .ok []
    | some pmids => .ok pmids
  else .error (.remote r.searchStatus)

/-- The consecutive batches `pmids[i:i+MAX_UIDS_PER_REQUEST]` for
`i in range(0, len(pmids), MAX_UIDS_PER_REQUEST)`. -/
def chunkList : List String → List (List String)
  | [] => []
  | x :: xs =>
    ((x :: xs).take MAX_UIDS_PER_REQUEST) :: chunkList ((x :: xs).drop MAX_UIDS_PER_REQUEST)
termination_by l => l.length
decreasing_by simp [MAX_UIDS_PER_REQUEST]; omega

/-- The batch loop of `core.fetch_paper_details`: one POST per batch,
raise at the first non-success status, otherwise accumulate the
response bodies in order. -/
def fetchLoop (r : Remote) : List String → Except PipeError String
  | [] => .ok ""
  | x :: xs =>
    let batch := (x :: xs).take MAX_UIDS_PER_REQUEST
    if isSuccess (r.fetchStatus batch) then
      match fetchLoop r ((x :: xs).drop MAX_UIDS_PER_REQUEST) with
      | .ok rest => .ok (r.fetchBody batch ++ rest)
      | .error e => .error e
    else .error (.remote (r.fetchStatus batch))
termination_by l => l.length
decreasing_by simp [MAX_UIDS_PER_REQUEST]; omega

/-- `core.fetch_paper_details`: empty input returns `""` without any
request; otherwise the batch loop. -/
def fetch_paper_details (r : Remote) (pmids : List String) : Except PipeError String :=
  if pmids.isEmpty then .ok "" else fetchLoop r pmids

/-- `core.find_papers`: the orchestrator.  Its `try ... except
Exception: return []` makes every error — including the re-raised
`httpx.HTTPStatusError` — collapse to an empty result list. -/
def find_papers (parseXML : String → Option Element) (r : Remote) : List PaperResult :=
  match search_pubmed r with
  | .error _ => []
  | .ok pmids =>
    if pmids.isEmpty then []
    else
      match fetch_paper_details r pmids with
      | .error _ => []
      | .ok xml_data =>
        if xml_data = "" then []
        else parse_and_filter_papers parseXML xml_data

/-! ## Specification-side descriptions

These definitions follow the wording of the specification sentences the
claims cite; the theorems below relate them to the embedded code. -/

/-- Concatenation of a list of strings in order (the accumulation
`all_xml_data += response.text` over the batch loop). -/
def concatAll : List String → String
  | [] => ""
  | s :: rest => s ++ concatAll rest

/-- The matched affiliation text of one author: the trimmed text of the
first `Affiliation` descendant, when it exists and is classified
company-affiliated. -/
def authorCompanyAff (author_node : Element) : Option String :=
  match findDesc "Affiliation" author_node with
  | none => none
  | some n =>
    let t := pyStrip n.itertext
    if is_company_affiliation t then some t else none

/-- The display name `"{foreName} {lastName}"`, trimmed. -/
def authorDisplayName (author_node : Element) : String :=
  pyStrip (author_node.findtextDesc "ForeName" "" ++ " " ++
           author_node.findtextDesc "LastName" "")

/-- All matched affiliation texts of a result, one per company-classified
author in author order, duplicates kept. -/
def matchedAffs (authors : List Element) : List String :=
  authors.filterMap authorCompanyAff

/-- The display names of the company-classified authors in order, empty
names dropped, duplicates kept. -/
def companyNames (authors : List Element) : List String :=
  authors.filterMap (fun a =>
    match authorCompanyAff a with
    | none => none
    | some _ =>
      if authorDisplayName a = "" then none else some (authorDisplayName a))

/-- De-duplication keeping the first occurrence of each element, in
first-seen order. -/
def dedupFirst : List String → List String
  | [] => []
  | x :: xs => x :: dedupFirst (xs.filter (fun y => y != x))
termination_by l => l.length
decreasing_by exact Nat.lt_succ_of_le (List.length_filter_le _ _)

/-- The affiliation text the email heuristic sees for one author. -/
def affTextOf (author_node : Element) : String :=
  match findDesc "Affiliation" author_node with
  | some n => pyStrip n.itertext
  | none => ""

/-- The spec's qualification rule: the `CorrespondingAuthor` attribute
equals `"Y"`, or the affiliation text contains `"Corresponding"`. -/
def corrQualifies (author_node : Element) : Bool :=
  (author_node.getAttr "CorrespondingAuthor" "N" == "Y") ||
  strContains (affTextOf author_node) "Corresponding"

/-- The spec's email token rule (as amended for claim C7): replace
parentheses by spaces, split on whitespace, scan the tokens in reverse,
take the first containing `"@"`, and strip `.`, `;`, `,` from both
ends. -/
def specEmailToken (t : String) : Option String :=
  ((pyWords (parensToSpace t)).reverse.find? (fun w => strContains w "@")).map stripPunct

/-- The `.text` of the first child with the given tag, `""` for a
missing text, `"N/A"` for a missing child: one date component. -/
def specDateComp (d : Element) (tag : String) : String :=
  match (d.children.filter (fun c => c.tag == tag)).head? with
  | none => "N/A"
  | some e => e.text.getD ""

/-- The spec's publication-date rule (as amended for claim C6): take
the first `PubDate` node anywhere in the article subtree and render
`"{year}-{month}-{day}"` with each absent component as `"N/A"`; with no
`PubDate` node at all the result is the bare string `"N/A"`. -/
def specPublicationDate (article_node : Element) : String :=
  match (article_node.descendants.filter (fun e => e.tag == "PubDate")).head? with
  | none => "N/A"
  | some d =>
    specDateComp d "Year" ++ "-" ++ specDateComp d "Month" ++ "-" ++ specDateComp d "Day"

/-! ## Supporting lemmas -/

theorem mem_dedupFirst : ∀ (l : List String) (x : String), x ∈ dedupFirst l ↔ x ∈ l
  | [], x => by simp [dedupFirst]
  | a :: as, x => by
    rw [dedupFirst]
    simp only [List.mem_cons, mem_dedupFirst (as.filter (fun y => y != a)) x,
      List.mem_filter, bne_iff_ne, ne_eq]
    constructor
    · rintro (rfl | ⟨hx, _⟩)
      · exact Or.inl rfl
      · exact Or.inr hx
    · rintro (rfl | hx)
      · exact Or.inl rfl
      · by_cases hxa : x = a
        · exact Or.inl hxa
        · exact Or.inr ⟨hx, hxa⟩
termination_by l _ => l.length
decreasing_by exact Nat.lt_succ_of_le (List.length_filter_le _ _)

theorem dedupFirst_nodup : ∀ l : List String, (dedupFirst l).Nodup
  | [] => by simp [dedupFirst]
  | a :: as => by
    rw [dedupFirst]
    refine List.nodup_cons.mpr ⟨?_, dedupFirst_nodup _⟩
    intro hmem
    rw [mem_dedupFirst] at hmem
    simp at hmem
termination_by l => l.length
decreasing_by exact Nat.lt_succ_of_le (List.length_filter_le _ _)

theorem authorStep_char (acc : List String × List String) (a : Element) :
    authorStep acc a =
      match authorCompanyAff a with
      | none => acc
      | some t =>
        (if authorDisplayName a = "" then acc.1 else acc.1 ++ [authorDisplayName a],
         if t ∈ acc.2 then acc.2 else acc.2 ++ [t]) := by
  unfold authorStep authorCompanyAff authorDisplayName
  cases h : findDesc "Affiliation" a with
  | none => rfl
  | some n =>
    by_cases hc : is_company_affiliation (pyStrip n.itertext)
    · simp only [hc, if_true]
    · simp [hc]

theorem foldl_authorStep : ∀ (l : List Element) (ns affs : List String),
    l.foldl authorStep (ns, affs) =
      (ns ++ companyNames l,
       affs ++ dedupFirst ((matchedAffs l).filter (fun t => !decide (t ∈ affs)))) := by
  intro l
  induction l with
  | nil => intro ns affs; simp [companyNames, matchedAffs, dedupFirst]
  | cons a as ih =>
    intro ns affs
    rw [List.foldl_cons, authorStep_char]
    cases h : authorCompanyAff a with
    | none =>
      rw [ih]
      simp [companyNames, matchedAffs, List.filterMap_cons, h]
    | some t =>
      simp only []
      have hnames : (if authorDisplayName a = "" then ns else ns ++ [authorDisplayName a])
          ++ companyNames as = ns ++ companyNames (a :: as) := by
        by_cases hn : authorDisplayName a = ""
        · simp [companyNames, List.filterMap_cons, h, hn]
        · simp [companyNames, List.filterMap_cons, h, hn]
      by_cases hmem : t ∈ affs
      · rw [if_pos hmem, ih]
        refine Prod.ext ?_ ?_
        · simpa using hnames
        · simp [matchedAffs, List.filterMap_cons, h, List.filter_cons, hmem]
      · rw [if_neg hmem, ih]
        refine Prod.ext ?_ ?_
        · simpa using hnames
        · simp only []
          have hfil : (matchedAffs as).filter (fun x => !decide (x ∈ affs ++ [t])) =
              ((matchedAffs as).filter (fun x => !decide (x ∈ affs))).filter (fun y => y != t) := by
            rw [List.filter_filter]
            refine List.filter_congr ?_
            intro x _
            by_cases hxt : x = t
            · simp [hxt, List.mem_append]
            · by_cases hxa : x ∈ affs
              · simp [hxa, List.mem_append, hxt]
              · simp [hxa, List.mem_append, hxt]
          rw [hfil]
          have hrhs : (matchedAffs (a :: as)).filter (fun x => !decide (x ∈ affs)) =
              t :: (matchedAffs as).filter (fun x => !decide (x ∈ affs)) := by
            simp [matchedAffs, List.filterMap_cons, h, List.filter_cons, hmem]
          rw [hrhs, dedupFirst]
          simp

theorem containsSub_singleton (c : Char) : ∀ l : List Char, containsSub [c] l = true ↔ c ∈ l
  | [] => by simp [containsSub, leadsWith]
  | x :: xs => by
    simp [containsSub, leadsWith, containsSub_singleton c xs, List.mem_cons]

theorem wordsAux_covers (c : Char) (hc : isPySpace c = false) :
    ∀ (l cur : List Char), (c ∈ cur ∨ c ∈ l) → ∃ w ∈ wordsAux cur l, c ∈ w := by
  intro l
  induction l with
  | nil =>
    intro cur h
    rcases h with h | h
    · have hne : ¬cur.isEmpty := by cases cur <;> simp_all
      exact ⟨cur.reverse, by simp [wordsAux, hne], by simpa using h⟩
    · simp at h
  | cons x xs ih =>
    intro cur h
    by_cases hx : isPySpace x
    · have hcx : c ≠ x := fun he => by rw [he, hx] at hc; cases hc
      rcases h with h | h
      · have hne : ¬cur.isEmpty := by cases cur <;> simp_all
        exact ⟨cur.reverse, by simp [wordsAux, hx, hne], by simpa using h⟩
      · have hxs : c ∈ xs := by
          rcases List.mem_cons.mp h with rfl | h2
          · exact absurd rfl hcx
          · exact h2
        obtain ⟨w, hw, hcw⟩ := ih [] (Or.inr hxs)
        by_cases hne : cur.isEmpty
        · exact ⟨w, by simpa [wordsAux, hx, hne] using hw, hcw⟩
        · refine ⟨w, ?_, hcw⟩
          simp only [wordsAux, hx, if_true, hne, if_false]
          exact List.mem_cons_of_mem _ hw
    · have h2 : c ∈ (x :: cur) ∨ c ∈ xs := by
        rcases h with h | h
        · exact Or.inl (List.mem_cons_of_mem _ h)
        · rcases List.mem_cons.mp h with rfl | h2
          · exact Or.inl (List.mem_cons_self _ _)
          · exact Or.inr h2
      obtain ⟨w, hw, hcw⟩ := ih (x :: cur) h2
      exact ⟨w, by simpa [wordsAux, hx] using hw, hcw⟩

theorem emailToken_exists (s : String) (h : strContains s "@" = true) :
    ∃ w ∈ (pyWords (parensToSpace s)).reverse, strContains w "@" = true := by
  have hmem : '@' ∈ s.data := (containsSub_singleton '@' s.data).mp h
  have hmem2 : '@' ∈ (parensToSpace s).data := by
    simp only [parensToSpace]
    exact List.mem_map.mpr ⟨'@', hmem, by decide⟩
  obtain ⟨w, hw, hcw⟩ := wordsAux_covers '@' (by decide) (parensToSpace s).data [] (Or.inr hmem2)
  refine ⟨String.mk w, ?_, ?_⟩
  · rw [List.mem_reverse]
    exact List.mem_map_of_mem _ hw
  · exact (containsSub_singleton '@' w).mpr hcw

theorem emailFromAuthor_char (a : Element) :
    emailFromAuthor a =
      if corrQualifies a && strContains (affTextOf a) "@" then specEmailToken (affTextOf a)
      else none := by
  unfold emailFromAuthor corrQualifies affTextOf specEmailToken
  cases h : findDesc "Affiliation" a with
  | none =>
    have h1 : strContains "" "Corresponding" = false := by decide
    have h2 : strContains "" "@" = false := by decide
    simp [h1, h2]
  | some n =>
    by_cases ht : pyStrip n.itertext = ""
    · have h1 : strContains "" "Corresponding" = false := by decide
      have h2 : strContains "" "@" = false := by decide
      simp [ht, h1, h2]
    · cases hq : (a.getAttr "CorrespondingAuthor" "N" == "Y") <;>
        cases hcorr : strContains (pyStrip n.itertext) "Corresponding" <;>
        cases hat : strContains (pyStrip n.itertext) "@" <;>
        simp [hq, hcorr, hat, ht]

theorem findSome?_email_char : ∀ l : List Element,
    l.findSome? emailFromAuthor =
      (l.find? (fun a => corrQualifies a && strContains (affTextOf a) "@")).bind
        (fun a => specEmailToken (affTextOf a))
  | [] => by simp
  | a :: as => by
    rw [List.findSome?_cons, List.find?_cons]
    by_cases hq : (corrQualifies a && strContains (affTextOf a) "@") = true
    · rw [hq, emailFromAuthor_char, if_pos hq]
      have hat : strContains (affTextOf a) "@" = true := (Bool.and_eq_true _ _).mp hq |>.2
      obtain ⟨w, hw, hcw⟩ := emailToken_exists _ hat
      have hsome : ((pyWords (parensToSpace (affTextOf a))).reverse.find?
          (fun w => strContains w "@")).isSome := by
        rw [List.find?_isSome]
        exact ⟨w, hw, hcw⟩
      obtain ⟨v, hv⟩ := Option.isSome_iff_exists.mp hsome
      simp [specEmailToken, hv]
    · rw [Bool.not_eq_true] at hq
      rw [hq, emailFromAuthor_char]
      simp only [hq, Bool.false_eq_true, if_false]
      exact findSome?_email_char as

theorem get_publication_date_char (a : Element) :
    get_publication_date a = specPublicationDate a := by
  unfold get_publication_date specPublicationDate specDateComp Element.findtextChild findDesc
  simp only [List.filter_head?]
  cases List.find? (fun x => x.tag == "PubDate") a.descendants <;> rfl

theorem chunkList_cons_eq (l : List String) (h : l ≠ []) :
    chunkList l = l.take MAX_UIDS_PER_REQUEST :: chunkList (l.drop MAX_UIDS_PER_REQUEST) := by
  cases l with
  | nil => exact absurd rfl h
  | cons x xs => rw [chunkList]

theorem chunkList_chunk_le : ∀ (l : List String), ∀ b ∈ chunkList l, b.length ≤ MAX_UIDS_PER_REQUEST
  | [] => by simp [chunkList]
  | x :: xs => by
    intro b hb
    rw [chunkList] at hb
    rcases List.mem_cons.mp hb with rfl | hb
    · rw [List.length_take]
      exact Nat.min_le_left _ _
    · exact chunkList_chunk_le _ b hb
termination_by l => l.length
decreasing_by simp [MAX_UIDS_PER_REQUEST]; omega

theorem chunkList_flatten : ∀ l : List String, (chunkList l).flatten = l
  | [] => by simp [chunkList]
  | x :: xs => by
    rw [chunkList, List.flatten_cons, chunkList_flatten ((x :: xs).drop MAX_UIDS_PER_REQUEST),
      List.take_append_drop]
termination_by l => l.length
decreasing_by simp [MAX_UIDS_PER_REQUEST]; omega

theorem chunkList_map_length_450 (l : List String) (h : l.length = 450) :
    (chunkList l).map List.length = [200, 200, 50] := by
  have h1 : l ≠ [] := fun he => by rw [he] at h; simp at h
  have h2 : l.drop 200 ≠ [] := fun he => by
    have := congrArg List.length he
    simp [h] at this
  have h3 : (l.drop 200).drop 200 ≠ [] := fun he => by
    have := congrArg List.length he
    simp [h] at this
  have h4 : ((l.drop 200).drop 200).drop 200 = [] := by
    apply List.eq_nil_of_length_eq_zero
    simp [h]
  rw [chunkList_cons_eq l h1]
  simp only [MAX_UIDS_PER_REQUEST]
  rw [chunkList_cons_eq _ h2]
  simp only [MAX_UIDS_PER_REQUEST]
  rw [chunkList_cons_eq _ h3]
  simp only [MAX_UIDS_PER_REQUEST]
  rw [h4]
  have h5 : chunkList [] = [] := by rw [chunkList]
  rw [h5]
  simp [List.length_take, List.length_drop, h]

theorem fetchLoop_ok : ∀ (r : Remote) (l : List String),
    (∀ b ∈ chunkList l, isSuccess (r.fetchStatus b) = true) →
    fetchLoop r l = .ok (concatAll ((chunkList l).map r.fetchBody))
  | r, [], _ => by rw [fetchLoop, chunkList]; rfl
  | r, x :: xs, h => by
    have hb : isSuccess (r.fetchStatus ((x :: xs).take MAX_UIDS_PER_REQUEST)) = true := by
      apply h
      rw [chunkList]
      exact List.mem_cons_self _ _
    have ih := fetchLoop_ok r ((x :: xs).drop MAX_UIDS_PER_REQUEST)
      (fun b hb2 => h b (by rw [chunkList]; exact List.mem_cons_of_mem _ hb2))
    rw [fetchLoop]
    simp only [hb, if_true, ih]
    rw [chunkList]
    rfl
termination_by _ l => l.length
decreasing_by simp [MAX_UIDS_PER_REQUEST]; omega

theorem fetchLoop_error : ∀ (r : Remote) (l : List String),
    (∃ b ∈ chunkList l, isSuccess (r.fetchStatus b) = false) →
    ∃ e, fetchLoop r l = .error e
  | r, [], h => by rw [chunkList] at h; simp at h
  | r, x :: xs, h => by
    rw [fetchLoop]
    by_cases hb : isSuccess (r.fetchStatus ((x :: xs).take MAX_UIDS_PER_REQUEST)) = true
    · obtain ⟨b, hbmem, hbf⟩ := h
      rw [chunkList] at hbmem
      rcases List.mem_cons.mp hbmem with rfl | hbmem
      · rw [hb] at hbf; cases hbf
      · obtain ⟨e, he⟩ := fetchLoop_error r ((x :: xs).drop MAX_UIDS_PER_REQUEST) ⟨b, hbmem, hbf⟩
        exact ⟨e, by simp only [hb, if_true, he]⟩
    · rw [Bool.not_eq_true] at hb
      refine ⟨PipeError.remote (r.fetchStatus ((x :: xs).take MAX_UIDS_PER_REQUEST)), ?_⟩
      simp [hb]
termination_by _ l => l.length
decreasing_by simp [MAX_UIDS_PER_REQUEST]; omega

theorem filter_not_mem_nil (m : List String) :
    m.filter (fun t => !decide (t ∈ ([] : List String))) = m := by simp

/-! ## Concrete documents used by counterexamples and witnesses -/

/-- The search endpoint answering 500 (a non-success status). -/
def badRemote : Remote where
  searchStatus := 500
  searchIdList := some ["1"]
  fetchStatus := fun _ => 200
  fetchBody := fun _ => ""

/-- The search endpoint answering 404. -/
def badRemote404 : Remote where
  searchStatus := 404
  searchIdList := some []
  fetchStatus := fun _ => 200
  fetchBody := fun _ => ""

/-- A `PubmedArticle` node with no `PMID`, `ArticleTitle` or
`AuthorList` descendant. -/
def emptyArticle : Element := elemOf "PubmedArticle" [] none []

/-- A complete article whose subtree contains no `PubDate` node. -/
def noDateArticle : Element :=
  elemOf "PubmedArticle" [] none
    [elemOf "PMID" [] (some "11111") [],
     elemOf "ArticleTitle" [] (some "T") [],
     elemOf "AuthorList" [] none
       [elemOf "Author" [] none
         [elemOf "LastName" [] (some "Doe") [],
          elemOf "ForeName" [] (some "Jane") [],
          elemOf "Affiliation" [] (some "PharmaCorp Inc.") []]]]

/-- A corresponding author (attribute `"Y"`) whose email token carries a
leading comma. -/
def leadingPunctAuthor : Element :=
  elemOf "Author" [("CorrespondingAuthor", "Y")] none
    [elemOf "Affiliation" [] (some "PharmaCorp Inc. ,jane@x.com") []]

def leadingPunctAuthorList : Element :=
  elemOf "AuthorList" [] none [leadingPunctAuthor]

/-- Two company-affiliated authors with the same display name and the
same affiliation text. -/
def dupAffArticle : Element :=
  elemOf "PubmedArticle" [] none
    [elemOf "PMID" [] (some "1") [],
     elemOf "ArticleTitle" [] (some "T") [],
     elemOf "AuthorList" [] none
       [elemOf "Author" [] none
         [elemOf "LastName" [] (some "Doe") [],
          elemOf "ForeName" [] (some "Jane") [],
          elemOf "Affiliation" [] (some "BioGen Inc.") []],
        elemOf "Author" [] none
         [elemOf "LastName" [] (some "Doe") [],
          elemOf "ForeName" [] (some "Jane") [],
          elemOf "Affiliation" [] (some "BioGen Inc.") []]]]

/-- The result `parse_and_filter` builds for `dupAffArticle`. -/
def dupAffResult : PaperResult where
  pubmed_id := "1"
  title := "T"
  publication_date := "N/A"
  non_academic_authors := ["Jane Doe", "Jane Doe"]
  company_affiliations := ["BioGen Inc."]
  corresponding_author_email := none

/-- An author node with no `Affiliation` descendant. -/
def bareAuthor : Element :=
  elemOf "Author" [] none [elemOf "LastName" [] (some "Doe") []]

/-! ## Claim theorems -/

/-- Claim C1: an affiliation string is classified company-affiliated if
and only if its lowercased text contains, as a plain substring, at least
one keyword of the fixed set `COMPANY_KEYWORDS`; strings containing none
are excluded. -/
theorem claim1_company_iff (s : String) :
    is_company_affiliation s = true ↔
      ∃ k ∈ COMPANY_KEYWORDS, strContains (pyLower s) k = true := by
  unfold is_company_affiliation
  by_cases h : s = ""
  · subst h
    simp only [if_pos rfl]
    constructor
    · intro hf; cases hf
    · rintro ⟨k, hk, hc⟩
      have hall : ∀ k ∈ COMPANY_KEYWORDS, strContains (pyLower "") k = false := by decide
      rw [hall k hk] at hc
      cases hc
  · rw [if_neg h, List.any_eq_true]

/-- Claim C2 counterexample: with the search endpoint answering 500, the
stage raises the remote error, yet `find_papers` still returns a result
list (the empty one) — the error does not propagate to the caller of the
pipeline, contradicting the claim. -/
theorem claim2_counterexample :
    search_pubmed badRemote = Except.error (PipeError.remote 500) ∧
    find_papers (fun _ => none) badRemote = [] :=
  ⟨rfl, rfl⟩

/-- Claim C2 (amended): a non-success HTTP status makes the stage
function (`search_pubmed` / `fetch_paper_details`) raise the remote
error, but `find_papers` catches every exception and returns the empty
list, so no error reaches its caller. -/
theorem claim2_remote_error_swallowed (parseXML : String → Option Element) (r : Remote) :
    (isSuccess r.searchStatus = false →
      search_pubmed r = .error (.remote r.searchStatus) ∧ find_papers parseXML r = []) ∧
    (∀ pmids : List String, isSuccess r.searchStatus = true → r.searchIdList = some pmids →
      pmids ≠ [] → (∃ b ∈ chunkList pmids, isSuccess (r.fetchStatus b) = false) →
      (∃ e, fetch_paper_details r pmids = .error e) ∧ find_papers parseXML r = []) := by
  constructor
  · intro hs
    have h1 : search_pubmed r = .error (.remote r.searchStatus) := by
      unfold search_pubmed
      simp [hs]
    refine ⟨h1, ?_⟩
    unfold find_papers
    rw [h1]
  · intro pmids hs hid hne hex
    have h1 : search_pubmed r = .ok pmids := by
      unfold search_pubmed
      simp [hs, hid]
    obtain ⟨e, he⟩ := fetchLoop_error r pmids hex
    have h2 : fetch_paper_details r pmids = .error e := by
      unfold fetch_paper_details
      rw [if_neg (by simpa using hne)]
      exact he
    refine ⟨⟨e, h2⟩, ?_⟩
    unfold find_papers
    rw [h1]
    simp only [List.isEmpty_eq_true, hne, if_false, h2]

/-- Witness for claim C2's amended theorem: a concrete 404 search. -/
theorem claim2_witness :
    isSuccess badRemote404.searchStatus = false ∧
    find_papers (fun _ => none) badRemote404 = [] :=
  ⟨by decide, ((claim2_remote_error_swallowed (fun _ => none) badRemote404).1 (by decide)).2⟩

/-- Claim C3: an article node lacking a `PMID`, `ArticleTitle` or
`AuthorList` descendant is skipped entirely — no record is produced for
it, and the remaining articles are processed exactly as without it. -/
theorem claim3_skip_incomplete (a : Element)
    (h : findDesc "PMID" a = none ∨ findDesc "ArticleTitle" a = none ∨
         findDesc "AuthorList" a = none) :
    processArticle a = none ∧
    ∀ pre post : List Element,
      (pre ++ a :: post).filterMap processArticle = (pre ++ post).filterMap processArticle := by
  have h0 : processArticle a = none := by
    unfold processArticle
    rcases h with h | h | h
    · rw [h]
    · cases h1 : findDesc "PMID" a
      · rfl
      · rw [h]
    · cases h1 : findDesc "PMID" a
      · rfl
      · cases h2 : findDesc "ArticleTitle" a
        · rfl
        · rw [h]
  refine ⟨h0, ?_⟩
  intro pre post
  simp [List.filterMap_append, List.filterMap_cons, h0]

/-- Witness for claim C3: an article with none of the three nodes. -/
theorem claim3_witness :
    findDesc "PMID" emptyArticle = none ∧ processArticle emptyArticle = none :=
  ⟨rfl, (claim3_skip_incomplete emptyArticle (Or.inl rfl)).1⟩

/-- Claim C4: whenever the whitespace-stripped input is empty or the
prolog-stripped, root-wrapped text fails to parse, `parse_and_filter`
returns the empty list (and, being a total function, raises nothing). -/
theorem claim4_parse_failure_empty (parseXML : String → Option Element) (s : String)
    (h : pyStrip s = "" ∨ parseXML (wrapRoot s) = none) :
    parse_and_filter_papers parseXML s = [] := by
  unfold parse_and_filter_papers
  rcases h with h | h
  · rw [if_pos h]
  · by_cases h2 : pyStrip s = ""
    · rw [if_pos h2]
    · rw [if_neg h2, h]

/-- Witness for claim C4: the empty document and the unterminated
document of the repository's own test, against a parser rejecting
everything. -/
theorem claim4_witness :
    parse_and_filter_papers (fun _ => none) "" = [] ∧
    parse_and_filter_papers (fun _ => none)
      "<PubmedArticle><PMID>1</PMID><ArticleTitle>Test" = [] :=
  ⟨claim4_parse_failure_empty _ _ (Or.inl rfl),
   claim4_parse_failure_empty _ _ (Or.inr rfl)⟩

/-- Claim C5: the fetch step cuts the identifier list into consecutive
batches of at most `MAX_UIDS_PER_REQUEST` whose concatenation restores
the input, a 450-identifier list gives exactly the batch sizes
200, 200, 50, the empty list yields `""` with no batch, and when every
batch succeeds the result is the concatenation of the batch response
bodies in batch order. -/
theorem claim5_fetch_batching (r : Remote) (pmids : List String) :
    (∀ b ∈ chunkList pmids, b.length ≤ MAX_UIDS_PER_REQUEST) ∧
    (chunkList pmids).flatten = pmids ∧
    (pmids.length = 450 → (chunkList pmids).map List.length = [200, 200, 50]) ∧
    (pmids = [] → fetch_paper_details r pmids = .ok "" ∧ chunkList pmids = []) ∧
    ((∀ b ∈ chunkList pmids, isSuccess (r.fetchStatus b) = true) →
      fetch_paper_details r pmids = .ok (concatAll ((chunkList pmids).map r.fetchBody))) := by
  refine ⟨chunkList_chunk_le pmids, chunkList_flatten pmids, chunkList_map_length_450 pmids,
    ?_, ?_⟩
  · rintro rfl
    exact ⟨rfl, by rw [chunkList]⟩
  · intro h
    unfold fetch_paper_details
    by_cases he : pmids.isEmpty
    · rw [if_pos he]
      have hnil : pmids = [] := List.isEmpty_iff.mp he
      subst hnil
      rw [chunkList]
      rfl
    · rw [if_neg he]
      exact fetchLoop_ok r pmids h

/-- Witness for claim C5: 450 identifiers are sent as batches of
200, 200 and 50. -/
theorem claim5_witness :
    (chunkList (List.replicate 450 "x")).map List.length = [200, 200, 50] :=
  ((claim5_fetch_batching ⟨200, some [], fun _ => 200, fun _ => ""⟩
    (List.replicate 450 "x")).2.2.1) (by rw [List.length_replicate])

/-- Claim C6 counterexample: an article whose subtree has no date node
gets the bare string `"N/A"`, which is not of the claimed
`"{year}-{month}-{day}"` shape with the three components rendered
`"N/A"`; the constructed result carries that bare value. -/
theorem claim6_counterexample :
    findDesc "PubDate" noDateArticle = none ∧
    get_publication_date noDateArticle = "N/A" ∧
    ("N/A" : String) ≠ "N/A" ++ "-" ++ "N/A" ++ "-" ++ "N/A" ∧
    ∃ p, processArticle noDateArticle = some p ∧ p.publication_date = "N/A" := by
  refine ⟨rfl, rfl, by decide, ?_⟩
  exact ⟨_, rfl, rfl⟩

/-- Claim C6 (amended): the publication date comes from the first
`PubDate` node anywhere in the article subtree as
`"{year}-{month}-{day}"`, each component independently `"N/A"` when its
node is absent; when the subtree has no date node at all the whole
string is the literal `"N/A"`. -/
theorem claim6_publication_date_spec (article_node : Element) :
    get_publication_date article_node = specPublicationDate article_node ∧
    (findDesc "PubDate" article_node = none → get_publication_date article_node = "N/A") := by
  refine ⟨get_publication_date_char article_node, ?_⟩
  intro h
  unfold get_publication_date
  rw [h]

/-- Witness for claim C6's amended theorem. -/
theorem claim6_witness : get_publication_date noDateArticle = "N/A" :=
  (claim6_publication_date_spec noDateArticle).2 rfl

/-- Claim C7 counterexample: Python's `strip(".;,")` removes the listed
characters from both ends of the email token, not only trailing ones:
for the token `",jane@x.com"` the code returns `"jane@x.com"`, while
trailing-only stripping as claimed would leave `",jane@x.com"`. -/
theorem claim7_counterexample :
    get_corresponding_author_email leadingPunctAuthorList = some "jane@x.com" ∧
    stripTrailingPunct ",jane@x.com" = ",jane@x.com" ∧
    some ",jane@x.com" ≠ some "jane@x.com" :=
  ⟨rfl, rfl, by decide⟩

/-- Claim C7 (amended): the email is computed from the first author that
qualifies (attribute `"Y"` or affiliation containing `"Corresponding"`)
and whose affiliation contains `"@"`: parentheses replaced by spaces,
whitespace tokens scanned in reverse, first token containing `"@"`
returned with `.`, `;`, `,` stripped from both ends; with no such
author the email is unset. -/
theorem claim7_email_spec (author_list_node : Element) :
    get_corresponding_author_email author_list_node =
      ((childrenNamed "Author" author_list_node).find?
          (fun a => corrQualifies a && strContains (affTextOf a) "@")).bind
        (fun a => specEmailToken (affTextOf a)) :=
  findSome?_email_char (childrenNamed "Author" author_list_node)

/-- Claim C8: in every constructed result the company affiliations are
the matched affiliation texts de-duplicated by exact string match in
first-seen order (so each appears exactly once), while the non-academic
author names keep duplicates. -/
theorem claim8_affiliations_dedup (a : Element) (p : PaperResult)
    (h : processArticle a = some p) :
    p.company_affiliations.Nodup ∧
    ∃ al, findDesc "AuthorList" a = some al ∧
      p.company_affiliations = dedupFirst (matchedAffs (childrenNamed "Author" al)) ∧
      (∀ x, x ∈ p.company_affiliations ↔ x ∈ matchedAffs (childrenNamed "Author" al)) ∧
      p.non_academic_authors = companyNames (childrenNamed "Author" al) := by
  unfold processArticle at h
  cases h1 : findDesc "PMID" a <;> rw [h1] at h
  · exact Option.noConfusion h
  cases h2 : findDesc "ArticleTitle" a <;> rw [h2] at h
  · exact Option.noConfusion h
  cases h3 : findDesc "AuthorList" a <;> rw [h3] at h
  · exact Option.noConfusion h
  case some.some.some pid titleN al =>
  simp only [foldl_authorStep, List.nil_append, filter_not_mem_nil] at h
  by_cases hne : companyNames (childrenNamed "Author" al) = []
  · rw [if_pos hne] at h
    exact Option.noConfusion h
  · rw [if_neg hne] at h
    have hp := Option.some.inj h
    subst hp
    exact ⟨dedupFirst_nodup _, al, rfl, rfl, fun x => mem_dedupFirst _ x, rfl⟩

/-- Witness for claim C8: two identically named, identically affiliated
company authors — the name list keeps the duplicate, the affiliation
list holds one copy. -/
theorem claim8_witness :
    processArticle dupAffArticle = some dupAffResult ∧
    dupAffResult.company_affiliations.Nodup :=
  ⟨rfl, (claim8_affiliations_dedup dupAffArticle dupAffResult rfl).1⟩

/-- Claim C9: the CSV serialization is one six-field row matching the
fixed six-column header, the two list fields joined with `"; "`, a
missing email rendered `"N/A"`. -/
theorem claim9_csv_row (p : PaperResult) :
    PaperResult.get_csv_header =
      ["PubmedID", "Title", "Publication Date", "Non-academic Author(s)",
       "Company Affiliation(s)", "Corresponding Author Email"] ∧
    PaperResult.get_csv_header.length = 6 ∧
    (PaperResult.to_csv_row p).length = 6 ∧
    PaperResult.to_csv_row p =
      [p.pubmed_id, p.title, p.publication_date,
       String.intercalate "; " p.non_academic_authors,
       String.intercalate "; " p.company_affiliations,
       match p.corresponding_author_email with
       | none => "N/A"
       | some e => if e = "" then "N/A" else e] ∧
    (p.corresponding_author_email = none →
      (PaperResult.to_csv_row p).getD 5 "" = "N/A") := by
  refine ⟨rfl, rfl, rfl, rfl, ?_⟩
  intro h
  simp [PaperResult.to_csv_row, h]

/-- Witness for claim C9: a result with no email serializes `"N/A"` in
the sixth field. -/
theorem claim9_witness :
    (PaperResult.to_csv_row ⟨"1", "T", "D", ["A"], ["C"], none⟩).getD 5 "" = "N/A" :=
  (claim9_csv_row ⟨"1", "T", "D", ["A"], ["C"], none⟩).2.2.2.2 rfl

/-- Claim C10: an author node with no affiliation descendant contributes
nothing — it is never classified company-affiliated, and the author loop
leaves both accumulated lists unchanged, so the article's outcome is as
if the author were absent. -/
theorem claim10_no_affiliation_ignored (a : Element)
    (h : findDesc "Affiliation" a = none) :
    authorCompanyAff a = none ∧
    (∀ acc, authorStep acc a = acc) ∧
    ∀ pre post : List Element,
      (pre ++ a :: post).foldl authorStep ([], []) =
        (pre ++ post).foldl authorStep ([], []) := by
  have h1 : authorCompanyAff a = none := by
    unfold authorCompanyAff
    rw [h]
  have h2 : ∀ acc, authorStep acc a = acc := by
    intro acc
    unfold authorStep
    rw [h]
  refine ⟨h1, h2, ?_⟩
  intro pre post
  rw [List.foldl_append, List.foldl_cons, h2, ← List.foldl_append]

/-- Witness for claim C10: an author with only a name leaves the
accumulator untouched. -/
theorem claim10_witness :
    findDesc "Affiliation" bareAuthor = none ∧
    authorStep (["x"], ["y"]) bareAuthor = (["x"], ["y"]) :=
  ⟨rfl, (claim10_no_affiliation_ignored bareAuthor rfl).2.1 (["x"], ["y"])⟩
